import Mathlib

/-!
Verification development for the `pretty_regex` crate (src/pretty_regex).

The crate represents a regular-expression fragment as a Rust struct
`PrettyRegex<T>(String, PhantomData<T>)`: a pattern string together with a
zero-sized kind tag.  We embed it as a structure indexed by an inductive
kind.  Pattern strings are Lean `String`s; Rust `String::len` (a UTF-8 byte
count) is modelled by `String.utf8ByteSize`, and Rust `chars().nth i` by
indexing into `String.data`.  Rust operations that can panic are modelled
with `Option` (`none` = panic).
-/

/-- Sub-kinds of `CharClass` in src/pretty_regex/src/lib.rs: `Standard`
(spelled `Standart` in logic.rs), `Ascii`, `Custom`. -/
inductive ClassKind where
  | standard : ClassKind
  | ascii : ClassKind
  | custom : ClassKind
deriving DecidableEq, Repr

/-- The closed set of kind tags of `PrettyRegex<T>`: `Text`, `Chain`,
`Quantifier`, and `CharClass<_>`. -/
inductive Kind where
  | text : Kind
  | chain : Kind
  | quantifier : Kind
  | charClass : ClassKind → Kind
deriving DecidableEq, Repr

/-- Model of `PrettyRegex<T>(String, PhantomData<T>)` from lib.rs: a pattern string
tagged with a compile-time kind. -/
structure PrettyRegex (k : Kind) where
  pattern : String
deriving DecidableEq, Repr

/-- The left brace character, written via its code point to keep brace
characters out of literals. -/
def lbrace : Char := Char.ofNat 123

/-- The right brace character. -/
def rbrace : Char := Char.ofNat 125

/-- The metacharacter set of `regex_syntax::is_meta_character`, used by
`regex::escape` (external collaborator of `just`): `\ . + * ? ( ) | [ ] { }
^ $ # & - ~`. -/
def metaChars : List Char :=
  ['\\', '.', '+', '*', '?', '(', ')', '|', '[', ']', lbrace, rbrace,
   '^', '$', '#', '&', '-', '~']

/-- Model of `regex::escape`: prefixes every metacharacter of the input with a
backslash, character by character. -/
def escape (text : String) : String :=
  String.join (text.data.map (fun c =>
    if metaChars.contains c then "\\" ++ String.singleton c else String.singleton c))

/-- Model of `just` (lib.rs line 246): `PrettyRegex::from(format!("(?:{})", escape(&*text.into())))`,
tagged `Text`. -/
def just (text : String) : PrettyRegex Kind.text :=
  ⟨"(?:" ++ escape text ++ ")"⟩

/-- Model of `nonescaped` (lib.rs line 263): wraps raw caller syntax in a
non-capturing group, tagged `Chain`. -/
def nonescaped (text : String) : PrettyRegex Kind.chain :=
  ⟨"(?:" ++ text ++ ")"⟩

/-- Model of `PrettyRegex::then` (lib.rs line 168): `PrettyRegex::from(self.0 + &then.0)`,
for operands of any two kinds, producing `Chain`. -/
def PrettyRegex.then' {k₁ k₂ : Kind} (f : PrettyRegex k₁) (g : PrettyRegex k₂) :
    PrettyRegex Kind.chain :=
  ⟨f.pattern ++ g.pattern⟩

/-- Model of `impl Add for PrettyRegex` (lib.rs line 224): `self.then(rhs)`. -/
def PrettyRegex.add {k₁ k₂ : Kind} (f : PrettyRegex k₁) (g : PrettyRegex k₂) :
    PrettyRegex Kind.chain :=
  f.then' g

/-- Model of `PrettyRegex::repeats` (lib.rs line 627):
`format!("(?:{}){{{}}}", self, times)`. -/
def PrettyRegex.repeats {k : Kind} (f : PrettyRegex k) (times : Nat) :
    PrettyRegex Kind.quantifier :=
  ⟨"(?:" ++ f.pattern ++ ")\x7b" ++ Nat.repr times ++ "\x7d"⟩

/-- Model of `PrettyRegex::repeats_at_least` (lib.rs line 647):
`format!("(?:{}){{{},}}", self, times)`. -/
def PrettyRegex.repeats_at_least {k : Kind} (f : PrettyRegex k) (times : Nat) :
    PrettyRegex Kind.quantifier :=
  ⟨"(?:" ++ f.pattern ++ ")\x7b" ++ Nat.repr times ++ ",\x7d"⟩

/-- Model of `PrettyRegex::repeats_one_or_more_times` (lib.rs line 667):
`format!("(?:{})+", self)`. -/
def PrettyRegex.repeats_one_or_more_times {k : Kind} (f : PrettyRegex k) :
    PrettyRegex Kind.quantifier :=
  ⟨"(?:" ++ f.pattern ++ ")+"⟩

/-- Model of `PrettyRegex::optional` (lib.rs line 686): `format!("(?:{})?", self)`. -/
def PrettyRegex.optional {k : Kind} (f : PrettyRegex k) :
    PrettyRegex Kind.quantifier :=
  ⟨"(?:" ++ f.pattern ++ ")?"⟩

/-- Model of `PrettyRegex::repeats_zero_or_more_times` (lib.rs line 706):
`format!("(?:{})*", self)`. -/
def PrettyRegex.repeats_zero_or_more_times {k : Kind} (f : PrettyRegex k) :
    PrettyRegex Kind.quantifier :=
  ⟨"(?:" ++ f.pattern ++ ")*"⟩

/-- Model of `PrettyRegex::repeats_n_times_within` (lib.rs line 726):
`format!("(?:{}){{{},{}}}", self, range.start, range.end)`; the two `usize`
fields of the `Range` argument are passed explicitly. -/
def PrettyRegex.repeats_n_times_within {k : Kind} (f : PrettyRegex k)
    (start stop : Nat) : PrettyRegex Kind.quantifier :=
  ⟨"(?:" ++ f.pattern ++ ")\x7b" ++ Nat.repr start ++ "," ++ Nat.repr stop ++ "\x7d"⟩

/-- Model of `impl Mul<usize> for PrettyRegex` (lib.rs line 605): `self.repeats(rhs)`. -/
def PrettyRegex.mul {k : Kind} (f : PrettyRegex k) (rhs : Nat) :
    PrettyRegex Kind.quantifier :=
  f.repeats rhs

/-- The separator fold of `one_of` (lib.rs lines 808-812): starting from the
displayed first option, append `"|"` and the next option for each further
option. -/
def joinOr (x : String) (rest : List String) : String :=
  rest.foldl (fun acc o => acc ++ "|" ++ o) x

/-- Model of `one_of` (lib.rs line 804).  The Rust code indexes `options[0]` and so
panics on an empty slice; the panic is modelled by `none`.  Options are
taken as their `Display` output, which for `PrettyRegex` is the pattern. -/
def one_of (options : List String) : Option (PrettyRegex Kind.chain) :=
  match options with
  | [] => none
  | x :: rest => some ⟨joinOr x rest⟩

/-- Model of `impl BitOr for PrettyRegex` (lib.rs line 832):
`one_of(&[self.to_string(), rhs.to_string()])` — `one_of` applied to the
two-element (hence non-empty, non-panicking) slice of the displayed
operands. -/
def PrettyRegex.bitor {k₁ k₂ : Kind} (f : PrettyRegex k₁) (g : PrettyRegex k₂) :
    PrettyRegex Kind.chain :=
  ⟨joinOr f.pattern [g.pattern]⟩

/-- Model of `impl Not for PrettyRegex<Text>` (logic.rs lines 198-210): maps every
character `c` of the stored pattern string `self.0` to `[^c]` and
concatenates the results, producing `Chain`. -/
def notText (f : PrettyRegex Kind.text) : PrettyRegex Kind.chain :=
  ⟨String.join (f.pattern.data.map (fun c => "[^" ++ String.singleton c ++ "]"))⟩

/-- One pass of Rust `str::replace` specialised to a two-character pattern
`[a, b]` and two-character replacement `[a2, b2]`: scan left to right, on a
match consume both characters and continue after them (matches are
non-overlapping), otherwise emit one character and continue. -/
def replace2 (a b a2 b2 : Char) : List Char → List Char
  | [] => []
  | [c] => [c]
  | c :: d :: rest =>
    if c = a ∧ d = b then a2 :: b2 :: replace2 a b a2 b2 rest
    else c :: replace2 a b a2 b2 (d :: rest)

/-- The five chained lowercase-to-uppercase replacements of
`impl Not for PrettyRegex<CharClass<Standart>>` (logic.rs lines 141-148):
`\d→\D`, then `\p→\P`, then `\w→\W`, then `\s→\S`, then `\b→\B`, applied in
source order (the `\d` pass innermost). -/
def notStandardLower (l : List Char) : List Char :=
  replace2 '\\' 'b' '\\' 'B'
    (replace2 '\\' 's' '\\' 'S'
      (replace2 '\\' 'w' '\\' 'W'
        (replace2 '\\' 'p' '\\' 'P'
          (replace2 '\\' 'd' '\\' 'D' l))))

/-- The five chained uppercase-to-lowercase replacements of
`impl Not for PrettyRegex<CharClass<Standart>>` (logic.rs lines 150-157). -/
def notStandardUpper (l : List Char) : List Char :=
  replace2 '\\' 'B' '\\' 'b'
    (replace2 '\\' 'S' '\\' 's'
      (replace2 '\\' 'W' '\\' 'w'
        (replace2 '\\' 'P' '\\' 'p'
          (replace2 '\\' 'D' '\\' 'd' l))))

/-- Rust `char::is_lowercase` as used on the characters the code inspects.
It is exact on ASCII; every escape the crate constructs has an ASCII
character at index 1, which is the only place the predicate is applied. -/
def isLowercase (c : Char) : Bool := c.isLower

/-- Model of `impl Not for PrettyRegex<CharClass<Standart>>` (logic.rs lines
135-159).  `self.0.len() < 2` is a UTF-8 **byte** count
(`String.utf8ByteSize`); `self.0.chars().nth(1).unwrap()` panics (`none`)
when the string has fewer than two **characters**. -/
def notStandardPattern (s : String) : Option String :=
  if s.utf8ByteSize < 2 then some s
  else
    match s.data.get? 1 with
    | none => none
    | some c =>
      if isLowercase c then some (String.mk (notStandardLower s.data))
      else some (String.mk (notStandardUpper s.data))

/-- Rust `str::replace` for a non-empty pattern, on character lists: find
non-overlapping matches left to right and substitute the replacement.  The
fuel argument (instantiated with the input length, an upper bound on the
number of scan steps for non-empty patterns) makes the recursion
structural.  The crate only ever calls this with the non-empty patterns
`[[:` and `[[:^`. -/
def replaceAux (pat rep : List Char) : Nat → List Char → List Char
  | _, [] => []
  | 0, l => l
  | fuel + 1, c :: rest =>
    if pat.isPrefixOf (c :: rest) then
      rep ++ replaceAux pat rep fuel (List.drop pat.length (c :: rest))
    else c :: replaceAux pat rep fuel rest

/-- Rust `str::replace` on strings (non-empty pattern). -/
def strReplace (s pat rep : String) : String :=
  String.mk (replaceAux pat.data rep.data s.data.length s.data)

/-- Model of `impl Not for PrettyRegex<CharClass<Ascii>>` (logic.rs lines 183-195):
`self.0.chars().nth(3).expect(..)` panics (`none`) when the pattern has
fewer than four characters; otherwise, if the character at index 3 is `^`,
every `[[:^` is replaced by `[[:`, else every `[[:` is replaced by
`[[:^`. -/
def notAsciiPattern (s : String) : Option String :=
  match s.data.get? 3 with
  | none => none
  | some c =>
    if c = '^' then some (strReplace s "[[:^" "[[:")
    else some (strReplace s "[[:" "[[:^")

/-- A lowercase-to-uppercase toggle table: the five standard escape letters
`d p w s b` map to their uppercase counterparts, everything else to
`none`. -/
def sigmaLower (c : Char) : Option Char :=
  if c = 'd' then some 'D'
  else if c = 'p' then some 'P'
  else if c = 'w' then some 'W'
  else if c = 's' then some 'S'
  else if c = 'b' then some 'B'
  else none

/-- The uppercase-to-lowercase toggle table. -/
def sigmaUpper (c : Char) : Option Char :=
  if c = 'D' then some 'd'
  else if c = 'P' then some 'p'
  else if c = 'W' then some 'w'
  else if c = 'S' then some 's'
  else if c = 'B' then some 'b'
  else none

/-- Simultaneous single-pass toggling, following the claim's wording for the
standard-class complement: scan the pattern once; at each backslash followed
by a character in the toggle table, flip that character and continue after
the pair; leave all other text unchanged. -/
def simulToggle (σ : Char → Option Char) : List Char → List Char
  | [] => []
  | [c] => [c]
  | c :: d :: rest =>
    if c = '\\' then
      match σ d with
      | some d2 => c :: d2 :: simulToggle σ rest
      | none => c :: simulToggle σ (d :: rest)
    else c :: simulToggle σ (d :: rest)

/-- Modelled from the amended claim for the standard-class complement: a
pattern of fewer than 2 bytes is returned unchanged; a pattern of at least
2 bytes but fewer than 2 characters panics; otherwise the five escape
families are toggled simultaneously, direction chosen by the case of the
character at index 1, and no other text is changed. -/
def notStandardSpec (s : String) : Option String :=
  if s.utf8ByteSize < 2 then some s
  else
    match s.data.get? 1 with
    | none => none
    | some c =>
      if isLowercase c then some (String.mk (simulToggle sigmaLower s.data))
      else some (String.mk (simulToggle sigmaUpper s.data))

/-- Modelled from the amended claim for the ASCII-class complement: the
operation panics exactly when the pattern has fewer than 4 characters (the
POSIX prefix itself is not checked); otherwise the negation marker is
toggled by literal substitution, direction chosen by whether the character
at index 3 is `^`. -/
def notAsciiSpec (s : String) : Option String :=
  if s.data.length < 4 then none
  else if s.data.get? 3 = some '^' then some (strReplace s "[[:^" "[[:")
  else some (strReplace s "[[:" "[[:^")

/-- Double application of the standard-class complement, with the panic
case propagated. -/
def notNotStandard (s : String) : Option String :=
  (notStandardPattern s).bind notStandardPattern

/-- Induction on character lists with access to the tail and the
tail-of-tail, matching the recursion pattern of `replace2` and
`simulToggle`. -/
theorem twoStepInduction {P : List Char → Prop} (hnil : P [])
    (hsingle : ∀ c, P [c])
    (hcons : ∀ c d t, P t → P (d :: t) → P (c :: d :: t)) :
    ∀ l, P l := by
  have H : ∀ (n : Nat) (l : List Char), l.length ≤ n → P l := by
    intro n
    induction n with
    | zero =>
      intro l hl
      cases l with
      | nil => exact hnil
      | cons c t => simp at hl
    | succ n ih =>
      intro l hl
      cases l with
      | nil => exact hnil
      | cons c t =>
        cases t with
        | nil => exact hsingle c
        | cons d t2 =>
          simp only [List.length_cons] at hl
          exact hcons c d t2 (ih t2 (by omega))
            (ih (d :: t2) (by simp only [List.length_cons]; omega))
  exact fun l => H l.length l le_rfl

theorem replace2_cons2 (a b a2 b2 : Char) (t : List Char) :
    replace2 a b a2 b2 (a :: b :: t) = a2 :: b2 :: replace2 a b a2 b2 t := by
  simp [replace2]

theorem replace2_pair_ne (a b a2 b2 d : Char) (t : List Char) (h : d ≠ b) :
    replace2 a b a2 b2 (a :: d :: t) = a :: replace2 a b a2 b2 (d :: t) := by
  simp [replace2, h]

theorem replace2_cons_ne (a b a2 b2 c : Char) (t : List Char) (h : c ≠ a) :
    replace2 a b a2 b2 (c :: t) = c :: replace2 a b a2 b2 t := by
  cases t with
  | nil => simp [replace2]
  | cons d t2 => simp [replace2, h]

/-- A non-matching two-character window whose second character cannot start
a match passes through one `str::replace` scan untouched. -/
theorem replace2_skip2 (a b a2 b2 c d : Char) (t : List Char)
    (h1 : ¬(c = a ∧ d = b)) (h2 : d ≠ a) :
    replace2 a b a2 b2 (c :: d :: t) = c :: d :: replace2 a b a2 b2 t := by
  by_cases hc : c = a
  · have hd : d ≠ b := fun h => h1 ⟨hc, h⟩
    rw [hc, replace2_pair_ne a b a2 b2 d t hd, replace2_cons_ne a b a2 b2 d t h2]
  · rw [replace2_cons_ne a b a2 b2 c (d :: t) hc, replace2_cons_ne a b a2 b2 d t h2]

/-- A backslash-to-backslash replacement pass keeps a leading backslash. -/
theorem replace2_bslash_head (x y : Char) (t : List Char) :
    ∃ u, replace2 '\\' x '\\' y ('\\' :: t) = '\\' :: u := by
  cases t with
  | nil => exact ⟨[], by simp [replace2]⟩
  | cons d t2 =>
    by_cases hd : d = x
    · exact ⟨y :: replace2 '\\' x '\\' y t2, by
        rw [hd]; exact replace2_cons2 '\\' x '\\' y t2⟩
    · exact ⟨replace2 '\\' x '\\' y (d :: t2),
        replace2_pair_ne '\\' x '\\' y d t2 hd⟩

theorem simulToggle_cons_ne (σ : Char → Option Char) (c : Char) (t : List Char)
    (h : c ≠ '\\') :
    simulToggle σ (c :: t) = c :: simulToggle σ t := by
  cases t with
  | nil => simp [simulToggle]
  | cons d t2 => simp [simulToggle, h]

theorem simulToggle_no_bslash (σ : Char → Option Char) :
    ∀ t : List Char, '\\' ∉ t → simulToggle σ t = t := by
  intro t
  induction t with
  | nil => intro _; rfl
  | cons c rest ih =>
    intro h
    have hc : c ≠ '\\' := by
      intro hc
      exact h (hc ▸ List.mem_cons_self c rest)
    rw [simulToggle_cons_ne σ c rest hc,
      ih (fun hm => h (List.mem_cons_of_mem c hm))]

/-- The five sequential lowercase-to-uppercase replacements of the code
coincide with a single simultaneous toggling pass. -/
theorem notStandardLower_eq_simul : ∀ l : List Char,
    notStandardLower l = simulToggle sigmaLower l := by
  intro l
  induction l using twoStepInduction with
  | hnil => rfl
  | hsingle c => simp [notStandardLower, replace2, simulToggle]
  | hcons c d t iht ihdt =>
    by_cases hc : c = '\\'
    · subst hc
      by_cases hbs : d = '\\'
      · subst hbs
        obtain ⟨u1, hu1⟩ := replace2_bslash_head 'd' 'D' t
        obtain ⟨u2, hu2⟩ := replace2_bslash_head 'p' 'P' u1
        obtain ⟨u3, hu3⟩ := replace2_bslash_head 'w' 'W' u2
        obtain ⟨u4, hu4⟩ := replace2_bslash_head 's' 'S' u3
        simp only [notStandardLower] at ihdt ⊢
        rw [replace2_pair_ne '\\' 'd' '\\' 'D' '\\' t (by simp), hu1,
          replace2_pair_ne '\\' 'p' '\\' 'P' '\\' u1 (by simp), hu2,
          replace2_pair_ne '\\' 'w' '\\' 'W' '\\' u2 (by simp), hu3,
          replace2_pair_ne '\\' 's' '\\' 'S' '\\' u3 (by simp), hu4,
          replace2_pair_ne '\\' 'b' '\\' 'B' '\\' u4 (by simp),
          ← hu4, ← hu3, ← hu2, ← hu1, ihdt]
        simp [simulToggle, sigmaLower]
      by_cases h1 : d = 'd'
      · subst h1
        simp only [notStandardLower] at iht ⊢
        rw [replace2_cons2,
          replace2_skip2 '\\' 'p' '\\' 'P' '\\' 'D' _ (by simp) (by simp),
          replace2_skip2 '\\' 'w' '\\' 'W' '\\' 'D' _ (by simp) (by simp),
          replace2_skip2 '\\' 's' '\\' 'S' '\\' 'D' _ (by simp) (by simp),
          replace2_skip2 '\\' 'b' '\\' 'B' '\\' 'D' _ (by simp) (by simp),
          iht]
        simp [simulToggle, sigmaLower]
      by_cases h2 : d = 'p'
      · subst h2
        simp only [notStandardLower] at iht ⊢
        rw [replace2_skip2 '\\' 'd' '\\' 'D' '\\' 'p' t (by simp) (by simp),
          replace2_cons2,
          replace2_skip2 '\\' 'w' '\\' 'W' '\\' 'P' _ (by simp) (by simp),
          replace2_skip2 '\\' 's' '\\' 'S' '\\' 'P' _ (by simp) (by simp),
          replace2_skip2 '\\' 'b' '\\' 'B' '\\' 'P' _ (by simp) (by simp),
          iht]
        simp [simulToggle, sigmaLower]
      by_cases h3 : d = 'w'
      · subst h3
        simp only [notStandardLower] at iht ⊢
        rw [replace2_skip2 '\\' 'd' '\\' 'D' '\\' 'w' t (by simp) (by simp),
          replace2_skip2 '\\' 'p' '\\' 'P' '\\' 'w' _ (by simp) (by simp),
          replace2_cons2,
          replace2_skip2 '\\' 's' '\\' 'S' '\\' 'W' _ (by simp) (by simp),
          replace2_skip2 '\\' 'b' '\\' 'B' '\\' 'W' _ (by simp) (by simp),
          iht]
        simp [simulToggle, sigmaLower]
      by_cases h4 : d = 's'
      · subst h4
        simp only [notStandardLower] at iht ⊢
        rw [replace2_skip2 '\\' 'd' '\\' 'D' '\\' 's' t (by simp) (by simp),
          replace2_skip2 '\\' 'p' '\\' 'P' '\\' 's' _ (by simp) (by simp),
          replace2_skip2 '\\' 'w' '\\' 'W' '\\' 's' _ (by simp) (by simp),
          replace2_cons2,
          replace2_skip2 '\\' 'b' '\\' 'B' '\\' 'S' _ (by simp) (by simp),
          iht]
        simp [simulToggle, sigmaLower]
      by_cases h5 : d = 'b'
      · subst h5
        simp only [notStandardLower] at iht ⊢
        rw [replace2_skip2 '\\' 'd' '\\' 'D' '\\' 'b' t (by simp) (by simp),
          replace2_skip2 '\\' 'p' '\\' 'P' '\\' 'b' _ (by simp) (by simp),
          replace2_skip2 '\\' 'w' '\\' 'W' '\\' 'b' _ (by simp) (by simp),
          replace2_skip2 '\\' 's' '\\' 'S' '\\' 'b' _ (by simp) (by simp),
          replace2_cons2,
          iht]
        simp [simulToggle, sigmaLower]
      · simp only [notStandardLower] at iht ⊢
        rw [replace2_skip2 '\\' 'd' '\\' 'D' '\\' d t (by simp [h1]) hbs,
          replace2_skip2 '\\' 'p' '\\' 'P' '\\' d _ (by simp [h2]) hbs,
          replace2_skip2 '\\' 'w' '\\' 'W' '\\' d _ (by simp [h3]) hbs,
          replace2_skip2 '\\' 's' '\\' 'S' '\\' d _ (by simp [h4]) hbs,
          replace2_skip2 '\\' 'b' '\\' 'B' '\\' d _ (by simp [h5]) hbs,
          iht]
        simp [simulToggle, sigmaLower, h1, h2, h3, h4, h5, hbs,
          simulToggle_cons_ne]
    · simp only [notStandardLower] at ihdt ⊢
      rw [replace2_cons_ne '\\' 'd' '\\' 'D' c (d :: t) hc,
        replace2_cons_ne '\\' 'p' '\\' 'P' c _ hc,
        replace2_cons_ne '\\' 'w' '\\' 'W' c _ hc,
        replace2_cons_ne '\\' 's' '\\' 'S' c _ hc,
        replace2_cons_ne '\\' 'b' '\\' 'B' c _ hc,
        ihdt]
      simp [simulToggle, hc]

/-- The five sequential uppercase-to-lowercase replacements of the code
coincide with a single simultaneous toggling pass. -/
theorem notStandardUpper_eq_simul : ∀ l : List Char,
    notStandardUpper l = simulToggle sigmaUpper l := by
  intro l
  induction l using twoStepInduction with
  | hnil => rfl
  | hsingle c => simp [notStandardUpper, replace2, simulToggle]
  | hcons c d t iht ihdt =>
    by_cases hc : c = '\\'
    · subst hc
      by_cases hbs : d = '\\'
      · subst hbs
        obtain ⟨u1, hu1⟩ := replace2_bslash_head 'D' 'd' t
        obtain ⟨u2, hu2⟩ := replace2_bslash_head 'P' 'p' u1
        obtain ⟨u3, hu3⟩ := replace2_bslash_head 'W' 'w' u2
        obtain ⟨u4, hu4⟩ := replace2_bslash_head 'S' 's' u3
        simp only [notStandardUpper] at ihdt ⊢
        rw [replace2_pair_ne '\\' 'D' '\\' 'd' '\\' t (by simp), hu1,
          replace2_pair_ne '\\' 'P' '\\' 'p' '\\' u1 (by simp), hu2,
          replace2_pair_ne '\\' 'W' '\\' 'w' '\\' u2 (by simp), hu3,
          replace2_pair_ne '\\' 'S' '\\' 's' '\\' u3 (by simp), hu4,
          replace2_pair_ne '\\' 'B' '\\' 'b' '\\' u4 (by simp),
          ← hu4, ← hu3, ← hu2, ← hu1, ihdt]
        simp [simulToggle, sigmaUpper]
      by_cases h1 : d = 'D'
      · subst h1
        simp only [notStandardUpper] at iht ⊢
        rw [replace2_cons2,
          replace2_skip2 '\\' 'P' '\\' 'p' '\\' 'd' _ (by simp) (by simp),
          replace2_skip2 '\\' 'W' '\\' 'w' '\\' 'd' _ (by simp) (by simp),
          replace2_skip2 '\\' 'S' '\\' 's' '\\' 'd' _ (by simp) (by simp),
          replace2_skip2 '\\' 'B' '\\' 'b' '\\' 'd' _ (by simp) (by simp),
          iht]
        simp [simulToggle, sigmaUpper]
      by_cases h2 : d = 'P'
      · subst h2
        simp only [notStandardUpper] at iht ⊢
        rw [replace2_skip2 '\\' 'D' '\\' 'd' '\\' 'P' t (by simp) (by simp),
          replace2_cons2,
          replace2_skip2 '\\' 'W' '\\' 'w' '\\' 'p' _ (by simp) (by simp),
          replace2_skip2 '\\' 'S' '\\' 's' '\\' 'p' _ (by simp) (by simp),
          replace2_skip2 '\\' 'B' '\\' 'b' '\\' 'p' _ (by simp) (by simp),
          iht]
        simp [simulToggle, sigmaUpper]
      by_cases h3 : d = 'W'
      · subst h3
        simp only [notStandardUpper] at iht ⊢
        rw [replace2_skip2 '\\' 'D' '\\' 'd' '\\' 'W' t (by simp) (by simp),
          replace2_skip2 '\\' 'P' '\\' 'p' '\\' 'W' _ (by simp) (by simp),
          replace2_cons2,
          replace2_skip2 '\\' 'S' '\\' 's' '\\' 'w' _ (by simp) (by simp),
          replace2_skip2 '\\' 'B' '\\' 'b' '\\' 'w' _ (by simp) (by simp),
          iht]
        simp [simulToggle, sigmaUpper]
      by_cases h4 : d = 'S'
      · subst h4
        simp only [notStandardUpper] at iht ⊢
        rw [replace2_skip2 '\\' 'D' '\\' 'd' '\\' 'S' t (by simp) (by simp),
          replace2_skip2 '\\' 'P' '\\' 'p' '\\' 'S' _ (by simp) (by simp),
          replace2_skip2 '\\' 'W' '\\' 'w' '\\' 'S' _ (by simp) (by simp),
          replace2_cons2,
          replace2_skip2 '\\' 'B' '\\' 'b' '\\' 's' _ (by simp) (by simp),
          iht]
        simp [simulToggle, sigmaUpper]
      by_cases h5 : d = 'B'
      · subst h5
        simp only [notStandardUpper] at iht ⊢
        rw [replace2_skip2 '\\' 'D' '\\' 'd' '\\' 'B' t (by simp) (by simp),
          replace2_skip2 '\\' 'P' '\\' 'p' '\\' 'B' _ (by simp) (by simp),
          replace2_skip2 '\\' 'W' '\\' 'w' '\\' 'B' _ (by simp) (by simp),
          replace2_skip2 '\\' 'S' '\\' 's' '\\' 'B' _ (by simp) (by simp),
          replace2_cons2,
          iht]
        simp [simulToggle, sigmaUpper]
      · simp only [notStandardUpper] at iht ⊢
        rw [replace2_skip2 '\\' 'D' '\\' 'd' '\\' d t (by simp [h1]) hbs,
          replace2_skip2 '\\' 'P' '\\' 'p' '\\' d _ (by simp [h2]) hbs,
          replace2_skip2 '\\' 'W' '\\' 'w' '\\' d _ (by simp [h3]) hbs,
          replace2_skip2 '\\' 'S' '\\' 's' '\\' d _ (by simp [h4]) hbs,
          replace2_skip2 '\\' 'B' '\\' 'b' '\\' d _ (by simp [h5]) hbs,
          iht]
        simp [simulToggle, sigmaUpper, h1, h2, h3, h4, h5, hbs,
          simulToggle_cons_ne]
    · simp only [notStandardUpper] at ihdt ⊢
      rw [replace2_cons_ne '\\' 'D' '\\' 'd' c (d :: t) hc,
        replace2_cons_ne '\\' 'P' '\\' 'p' c _ hc,
        replace2_cons_ne '\\' 'W' '\\' 'w' c _ hc,
        replace2_cons_ne '\\' 'S' '\\' 's' c _ hc,
        replace2_cons_ne '\\' 'B' '\\' 'b' c _ hc,
        ihdt]
      simp [simulToggle, hc]

/-- A pattern that starts with two characters occupies at least two
bytes. -/
theorem utf8ByteSize_cons2 (c d : Char) (t : List Char) :
    ¬ (String.mk (c :: d :: t)).utf8ByteSize < 2 := by
  have hc := Char.utf8Size_pos c
  have hd := Char.utf8Size_pos d
  simp [String.utf8ByteSize, String.utf8ByteSize.go]
  omega

/-- Evaluation of the standard-class complement on a pattern that starts
with a backslash and a second character: the byte-length guard does not
fire and the direction is chosen by the case of that second character. -/
theorem notStandardPattern_bslash (x : Char) (rest : List Char) :
    notStandardPattern (String.mk ('\\' :: x :: rest)) =
      if isLowercase x then some (String.mk (notStandardLower ('\\' :: x :: rest)))
      else some (String.mk (notStandardUpper ('\\' :: x :: rest))) := by
  simp only [notStandardPattern]
  rw [if_neg (utf8ByteSize_cons2 '\\' x rest)]
  rfl

theorem simulToggle_bslash_pair (σ : Char → Option Char) (x y : Char)
    (rest : List Char) (hσ : σ x = some y) (hnb : '\\' ∉ rest) :
    simulToggle σ ('\\' :: x :: rest) = '\\' :: y :: rest := by
  simp [simulToggle, hσ, simulToggle_no_bslash σ rest hnb]

theorem joinOr_eq_go : ∀ (rest : List String) (x : String),
    joinOr x rest = String.intercalate.go x "|" rest := by
  intro rest
  induction rest with
  | nil => intro x; rfl
  | cons y ys ih => intro x; exact ih (x ++ "|" ++ y)

theorem one_of_cons_intercalate (x : String) (rest : List String) :
    one_of (x :: rest) = some ⟨String.intercalate "|" (x :: rest)⟩ := by
  simp only [one_of]
  rw [joinOr_eq_go rest x]
  rfl

/-- Claim C1 (code bug evidence): `just "a"` stores the pattern `(?:a)`,
and the `Text` complement maps over every character of that stored
pattern — wrapper punctuation included — so it renders
`[^(][^?][^:][^a][^)]` and not the per-literal-character `[^a]` that the
spec describes. -/
theorem claim_C1_bug_eval :
    (just "a").pattern = "(?:a)"
    ∧ (notText (just "a")).pattern = "[^(][^?][^:][^a][^)]"
    ∧ (notText (just "a")).pattern ≠ "[^a]" := by decide

/-- Claim C2 (confirmed): `repeats_n_times_within` wraps the pattern in a
non-capturing group and renders the half-open API bound verbatim as the
engine's counted range, so the range with start 3 and end 5 renders
`(?:..){3,5}`. -/
theorem claim_C2_theorem :
    (∀ (k : Kind) (f : PrettyRegex k) (a b : Nat),
      f.repeats_n_times_within a b =
        ⟨"(?:" ++ f.pattern ++ ")\x7b" ++ Nat.repr a ++ "," ++ Nat.repr b ++ "\x7d"⟩)
    ∧ ((just "f").repeats_n_times_within 3 5).pattern = "(?:(?:f))\x7b3,5\x7d" :=
  ⟨fun _ _ _ _ => rfl, by decide⟩

/-- Claim C3 (corrected): the standard-class complement equals the
spec-modelled description once the guard is read as a byte count: patterns
under 2 bytes are returned unchanged, patterns of at least 2 bytes but
fewer than 2 characters panic, and otherwise the five escape families are
toggled simultaneously in the direction given by the case of the character
at index 1, with no other text changed. -/
theorem claim_C3_theorem : ∀ s : String, notStandardPattern s = notStandardSpec s := by
  intro s
  simp only [notStandardPattern, notStandardSpec, notStandardLower_eq_simul,
    notStandardUpper_eq_simul]

/-- Claim C3 counterexample: the one-character pattern `é` is shorter than
2 characters, yet the complement does not return it unchanged — it panics,
because the guard counts bytes and `é` is 2 bytes long. -/
theorem claim_C3_counterexample :
    ("é" : String).data.length < 2 ∧ notStandardPattern "é" = none := by decide

/-- Claim C4 (confirmed): double complement is the identity on each of the
five lowercase-leading standard escape families: the four fixed escapes
and every property escape `\p{name}` whose name contains no backslash. -/
theorem claim_C4_theorem :
    notNotStandard "\\d" = some "\\d"
    ∧ notNotStandard "\\w" = some "\\w"
    ∧ notNotStandard "\\s" = some "\\s"
    ∧ notNotStandard "\\b" = some "\\b"
    ∧ ∀ name : List Char, '\\' ∉ name →
        notNotStandard (String.mk ('\\' :: 'p' :: lbrace :: (name ++ [rbrace])))
          = some (String.mk ('\\' :: 'p' :: lbrace :: (name ++ [rbrace]))) := by
  refine ⟨by decide, by decide, by decide, by decide, ?_⟩
  intro name hname
  have hnb : '\\' ∉ lbrace :: (name ++ [rbrace]) := by
    simp only [List.mem_cons, List.mem_append, List.mem_singleton]
    rintro (h | h | h)
    · exact absurd h (by decide)
    · exact hname h
    · exact absurd h (by decide)
  have e1 : notStandardPattern (String.mk ('\\' :: 'p' :: lbrace :: (name ++ [rbrace])))
      = some (String.mk ('\\' :: 'P' :: lbrace :: (name ++ [rbrace]))) := by
    rw [notStandardPattern_bslash, if_pos (by decide : isLowercase 'p' = true),
      notStandardLower_eq_simul,
      simulToggle_bslash_pair sigmaLower 'p' 'P' _ (by decide) hnb]
  have e2 : notStandardPattern (String.mk ('\\' :: 'P' :: lbrace :: (name ++ [rbrace])))
      = some (String.mk ('\\' :: 'p' :: lbrace :: (name ++ [rbrace]))) := by
    rw [notStandardPattern_bslash, if_neg (by decide),
      notStandardUpper_eq_simul,
      simulToggle_bslash_pair sigmaUpper 'P' 'p' _ (by decide) hnb]
  simp [notNotStandard, e1, e2]

/-- Witness for claim C4 at the concrete property escape `\p{Letter}`. -/
theorem claim_C4_witness :
    notNotStandard (String.mk ('\\' :: 'p' :: lbrace :: ("Letter".data ++ [rbrace])))
      = some (String.mk ('\\' :: 'p' :: lbrace :: ("Letter".data ++ [rbrace]))) :=
  claim_C4_theorem.2.2.2.2 "Letter".data (by decide)

/-- Claim C5 (corrected): the ASCII-class complement equals the
spec-modelled description once the failure condition is read as a length
check: it panics exactly when the pattern has fewer than 4 characters, and
otherwise toggles the POSIX negation marker by literal substitution in the
direction chosen by the character at index 3 — whether or not the `[[:`
prefix is actually present. -/
theorem claim_C5_theorem : ∀ s : String, notAsciiPattern s = notAsciiSpec s := by
  intro s
  simp only [notAsciiPattern, notAsciiSpec]
  cases h : s.data.get? 3 with
  | none =>
    rw [if_pos (show s.data.length < 4 by
      have := List.get?_eq_none.mp h
      omega)]
  | some c =>
    have hlen : ¬ s.data.length < 4 := by
      intro hlt
      rw [List.get?_eq_none.mpr (by omega)] at h
      cases h
    rw [if_neg hlen]
    by_cases hc : c = '^'
    · subst hc
      simp
    · simp [hc]

/-- Claim C5 counterexample: the 4-character pattern `abcd` has neither
`[[:` nor `[[:^` anywhere in it, yet the complement neither panics nor
changes it — it returns the pattern unchanged, so absence of the expected
prefix is not the failure condition. -/
theorem claim_C5_counterexample :
    ("[[:".data.isPrefixOf "abcd".data = false)
    ∧ ("[[:^".data.isPrefixOf "abcd".data = false)
    ∧ notAsciiPattern "abcd" = some "abcd" := by decide

/-- Claim C6 (confirmed): concatenation via `then` appends the two
operands' patterns left to right with no separator and no grouping, for
operands of any kinds, and the `+` operator is the same operation. -/
theorem claim_C6_theorem : ∀ (k₁ k₂ : Kind) (l : PrettyRegex k₁) (r : PrettyRegex k₂),
    (l.then' r).pattern = l.pattern ++ r.pattern ∧ l.add r = l.then' r :=
  fun _ _ _ _ => ⟨rfl, rfl⟩

/-- Claim C7 (confirmed): on any non-empty option list `one_of` returns a
`Chain` whose pattern is the operands joined with `|` in the given order
and with no surrounding group, and the binary `|` operator produces
exactly `one_of` of its two operands in order. -/
theorem claim_C7_theorem :
    (∀ (x : String) (rest : List String),
      one_of (x :: rest) = some ⟨String.intercalate "|" (x :: rest)⟩)
    ∧ ∀ (k₁ k₂ : Kind) (l : PrettyRegex k₁) (r : PrettyRegex k₂),
        (l.bitor r).pattern = l.pattern ++ "|" ++ r.pattern
        ∧ one_of [l.pattern, r.pattern] = some (l.bitor r) :=
  ⟨one_of_cons_intercalate, fun _ _ _ _ => ⟨rfl, rfl⟩⟩

/-- Claim C8 (confirmed): every quantification operation wraps the operand
pattern in a non-capturing group and appends its greedy quantifier —
`{n}`, `{n,}`, `+`, `?`, `*` — multiplication by an integer is `repeats`,
and `repeats 0` renders the counted range `{0}`. -/
theorem claim_C8_theorem :
    (∀ (k : Kind) (f : PrettyRegex k) (n : Nat),
      (f.repeats n).pattern = "(?:" ++ f.pattern ++ ")\x7b" ++ Nat.repr n ++ "\x7d"
      ∧ (f.repeats_at_least n).pattern
          = "(?:" ++ f.pattern ++ ")\x7b" ++ Nat.repr n ++ ",\x7d"
      ∧ f.repeats_one_or_more_times.pattern = "(?:" ++ f.pattern ++ ")+"
      ∧ f.optional.pattern = "(?:" ++ f.pattern ++ ")?"
      ∧ f.repeats_zero_or_more_times.pattern = "(?:" ++ f.pattern ++ ")*"
      ∧ f.mul n = f.repeats n)
    ∧ ((just "a").repeats 0).pattern = "(?:(?:a))\x7b0\x7d" :=
  ⟨fun _ _ _ => ⟨rfl, rfl, rfl, rfl, rfl, rfl⟩, by decide⟩

/-- Claim C10 (confirmed): `one_of` on the empty slice hits the
out-of-bounds index (modelled as `none`), and on any non-empty slice it
returns normally. -/
theorem claim_C10_theorem :
    one_of ([] : List String) = none
    ∧ ∀ (x : String) (rest : List String), (one_of (x :: rest)).isSome = true :=
  ⟨rfl, fun _ _ => rfl⟩
